import Mathlib

/-!
Verification of the SWAP v1 signaling relay and client runtime
(3gpp-swap repository) against its natural-language specification.

The JavaScript sources are shallowly embedded: JSON values become an
inductive type, ES `Map`s become association lists keyed by strings,
message objects become structures, and the crypto primitives
(HMAC-SHA256, AES-GCM) are abstracted as function parameters, since
their mathematical definitions play no role in the properties below.
-/

namespace Swap

/-- JSON value model.  JS objects are field lists in insertion order
(`Object.keys` order); JS numbers are restricted to integers, which is
all the code paths under verification produce or inspect. -/
inductive Json where
  | null : Json
  | bool : Bool → Json
  | num : Int → Json
  | str : String → Json
  | arr : List Json → Json
  | obj : List (String × Json) → Json
deriving Repr

/-- JSON string escaping of a single character, as in JSON.stringify. -/
def jsonEscapeChar (c : Char) : String :=
  if c = '"' then "\\\""
  else if c = '\\' then "\\\\"
  else if c = '\n' then "\\n"
  else if c = '\t' then "\\t"
  else if c = '\r' then "\\r"
  else String.singleton c

/-- JSON string literal rendering (quote and escape), as in JSON.stringify. -/
def jsonQuote (s : String) : String :=
  "\"" ++ String.join (s.data.map jsonEscapeChar) ++ "\""

mutual

/-- Embedding of `JSON.stringify` on the Json model: objects keep their
field (insertion) order, arrays keep element order. -/
def jsonStringify : Json → String
  | .null => "null"
  | .bool true => "true"
  | .bool false => "false"
  | .num n => toString n
  | .str s => jsonQuote s
  | .arr xs => "[" ++ jsonStringifyList xs ++ "]"
  | .obj fs => "\x7b" ++ jsonStringifyFields fs ++ "\x7d"

/-- Comma-joined rendering of array elements for `jsonStringify`. -/
def jsonStringifyList : List Json → String
  | [] => ""
  | [x] => jsonStringify x
  | x :: xs => jsonStringify x ++ "," ++ jsonStringifyList xs

/-- Comma-joined rendering of object fields for `jsonStringify`. -/
def jsonStringifyFields : List (String × Json) → String
  | [] => ""
  | [(k, v)] => jsonQuote k ++ ":" ++ jsonStringify v
  | (k, v) :: fs => jsonQuote k ++ ":" ++ jsonStringify v ++ "," ++ jsonStringifyFields fs

end

/-! ### String ordering

JS `Array.prototype.sort()` with the default comparator orders strings
by their code units.  We embed that comparison directly as a
lexicographic order on the character lists of the two strings. -/

/-- Lexicographic strict order on character lists by code point. -/
def charsLtb : List Char → List Char → Bool
  | [], [] => false
  | [], _ :: _ => true
  | _ :: _, [] => false
  | a :: as, b :: bs =>
      if a.toNat < b.toNat then true
      else if b.toNat < a.toNat then false
      else charsLtb as bs

/-- Embedding of the default JS string comparison: a ≤ b iff not (b < a). -/
def strLeb (a b : String) : Bool := !(charsLtb b.data a.data)

/-! ### Key sorting and canonical serialization

Embedding of `stableStringify` (security/IntegrityProtection.js):
`Object.keys(obj).sort()` followed by per-key rendering, recursing into
values that are plain objects and falling back to `JSON.stringify` for
everything else (primitives AND arrays).  Keys of a JS object are
distinct, so sorting the (key, value) pairs by key is the same as
sorting the key array and looking each key up. -/

/-- Insertion step of an insertion sort keyed by a string projection. -/
def insertByKey {α : Type} (key : α → String) (x : α) : List α → List α
  | [] => [x]
  | hd :: tl => if strLeb (key x) (key hd) then x :: hd :: tl else hd :: insertByKey key x tl

/-- Insertion sort by a string key, embedding `Array.prototype.sort()`
on (distinct) object keys.  On lists with distinct keys every
comparison sort agrees with this one. -/
def sortByKey {α : Type} (key : α → String) : List α → List α
  | [] => []
  | x :: tl => insertByKey key x (sortByKey key tl)

/-- Sort a field list by key, as `Object.keys(obj).sort()` does. -/
def sortFields : List (String × Json) → List (String × Json) := sortByKey Prod.fst

/-- Join rendered `(key, serializedValue)` pairs as `parts.join(',')`
does after pushing `JSON.stringify(k) + ':' + serialized` per key. -/
def joinRendered : List (String × String) → String
  | [] => ""
  | [(k, s)] => jsonQuote k ++ ":" ++ s
  | (k, s) :: fs => jsonQuote k ++ ":" ++ s ++ "," ++ joinRendered fs

mutual

/-- Embedding of `stableStringify` from IntegrityProtection: sort the
current object's keys, recurse into plain-object values, and use plain
`JSON.stringify` for every other value — including arrays, whose
object elements are therefore serialized with their original key order.
The source sorts the key array and then renders each value; since
rendering is per-field and key-preserving, this equals rendering each
field first and sorting the rendered pairs by key, which is how the
recursion is structured here. -/
def stableStringify : Json → String
  | .obj fs => "\x7b" ++ joinRendered (sortByKey Prod.fst (renderFields fs)) ++ "\x7d"
  | j => jsonStringify j

/-- Per-field rendering for `stableStringify`: the value of each field
is serialized recursively when it is a plain object, with
`JSON.stringify` otherwise (see `stableStringify`). -/
def renderFields : List (String × Json) → List (String × String)
  | [] => []
  | (k, v) :: fs => (k, stableStringify v) :: renderFields fs

end

/-! Canonicalization relations used to state the specification's
"equal up to key ordering" notion.  `canonAll` sorts object keys
recursively at EVERY depth, including objects nested inside arrays
(the spec's full canonical form); `canonNoArr` sorts object keys
recursively but leaves array subtrees untouched, which is the
normalization `stableStringify` actually respects. -/

mutual

/-- Recursively sort object keys everywhere, including inside arrays. -/
def canonAll : Json → Json
  | .obj fs => .obj (sortFields (canonAllFields fs))
  | .arr xs => .arr (canonAllList xs)
  | j => j

/-- Field-list worker for `canonAll`. -/
def canonAllFields : List (String × Json) → List (String × Json)
  | [] => []
  | (k, v) :: fs => (k, canonAll v) :: canonAllFields fs

/-- Array worker for `canonAll`. -/
def canonAllList : List Json → List Json
  | [] => []
  | x :: xs => canonAll x :: canonAllList xs

end

mutual

/-- Recursively sort object keys, but do not descend into arrays. -/
def canonNoArr : Json → Json
  | .obj fs => .obj (sortFields (canonNoArrFields fs))
  | j => j

/-- Field-list worker for `canonNoArr`. -/
def canonNoArrFields : List (String × Json) → List (String × Json)
  | [] => []
  | (k, v) :: fs => (k, canonNoArr v) :: canonNoArrFields fs

end

/-! ### Matching engine

Embedding of matching/MatchingEngine.js.  The registry `Map` becomes an
association list from endpoint id to the registered criteria list (the
`updatedAt` wall-clock field plays no role in any behavior and is
omitted).  A criterion's identity is the template string
`type + '::' + JSON.stringify(value)`; the JS `Set`s of those keys are
represented by the key lists, whose membership coincides with the
sets'. -/

/-- A `{type, value}` criterion. -/
structure Criterion where
  type : String
  value : Json
deriving Repr

/-- Embedding of `MatchingEngine._criterionKey`. -/
def criterionKey (c : Criterion) : String := c.type ++ "::" ++ jsonStringify c.value

/-- Key list of a criteria list (`MatchingEngine._criteriaSet`). -/
def criteriaKeys (cs : List Criterion) : List String := cs.map criterionKey

/-- One registry entry satisfies the query when every query key is
among the entry's keys (the inner loop of `findMatches`). -/
def matchesCriteria (query reg : List Criterion) : Bool :=
  query.all (fun c => (criteriaKeys reg).contains (criterionKey c))

/-- Embedding of `MatchingEngine.findMatches`: endpoints whose
registered criteria keys include every query key, in registry order. -/
def findMatches (registry : List (String × List Criterion)) (criteria : List Criterion) :
    List String :=
  (registry.filter (fun p => matchesCriteria criteria p.2)).map Prod.fst

/-- Registered criteria count of an endpoint
(`this.registry.get(endpointId)?.criteria?.length || 0`). -/
def criteriaCount (registry : List (String × List Criterion)) (e : String) : Nat :=
  ((List.lookup e registry).map List.length).getD 0

/-- Embedding of `MatchingEngine.selectEndpoint`.  `rand` stands for
the random draw: `Math.floor(Math.random() * top.length)` is a uniform
index into `top`, embedded as `rand % top.length` for an arbitrary
natural `rand`. -/
def selectEndpoint (registry : List (String × List Criterion)) (rand : Nat)
    (ms : List String) : Option String :=
  if ms.isEmpty then none
  else
    let scored := ms.map (fun id => (id, criteriaCount registry id))
    let maxC := (scored.map Prod.snd).foldl max 0
    let top := (scored.filter (fun s => s.2 == maxC)).map Prod.fst
    top.get? (rand % top.length)

/-! ### Map helpers

ES `Map` as an association list: `set` replaces in place or appends,
`delete` removes the (unique) entry with the key, `get` is `lookup`. -/

/-- Embedding of `Map.set`: replace the entry in place if the key exists, else append. -/
def mapSet {α : Type} (k : String) (v : α) : List (String × α) → List (String × α)
  | [] => [(k, v)]
  | (k2, v2) :: tl => if k2 = k then (k, v) :: tl else (k2, v2) :: mapSet k v tl

/-- Embedding of `Map.delete`: drop the entries with the key (a `Map` holds at most one). -/
def mapDelete {α : Type} (k : String) (l : List (String × α)) : List (String × α) :=
  l.filter (fun p => p.1 ≠ k)

/-! ### Session manager

Embedding of client/SessionManager.js: sessions are kept under the key
`[a, b].sort().join('|')`.  The stored value keeps the two endpoint ids
as given; the constant `state: 'active'` and the `createdAt` wall-clock
timestamp carry no information for the properties below and are
omitted. -/

/-- A stored session value `{ a, b }`. -/
structure SessionRec where
  a : String
  b : String
deriving Repr, DecidableEq

/-- Embedding of `SessionManager._key`: the pair sorted by the JS
string order and joined with a bar. -/
def smKey (a b : String) : String :=
  if strLeb a b then a ++ "|" ++ b else b ++ "|" ++ a

/-- Embedding of `SessionManager.create`. -/
def smCreate (a b : String) (sessions : List (String × SessionRec)) :
    List (String × SessionRec) :=
  mapSet (smKey a b) { a := a, b := b } sessions

/-- Embedding of `SessionManager.get`. -/
def smGet (a b : String) (sessions : List (String × SessionRec)) : Option SessionRec :=
  List.lookup (smKey a b) sessions

/-- Embedding of `SessionManager.remove`. -/
def smRemove (a b : String) (sessions : List (String × SessionRec)) :
    List (String × SessionRec) :=
  mapDelete (smKey a b) sessions

/-- Embedding of `SessionManager.listFor`. -/
def smListFor (endpoint : String) (sessions : List (String × SessionRec)) : List SessionRec :=
  (sessions.map Prod.snd).filter (fun s => s.a = endpoint ∨ s.b = endpoint)

/-! ### Client state machine

Embedding of state/StateMachine.js (`States`, `canSend`). -/

/-- The four JSEP-style client states. -/
inductive ClientState where
  | idle : ClientState
  | connecting : ClientState
  | connected : ClientState
  | closing : ClientState
deriving Repr, DecidableEq

/-- Embedding of `StateMachine.canSend`: which outbound message types
the state machine permits in each state. -/
def canSend : ClientState → String → Bool
  | .idle, t => ["register", "connect"].contains t
  | .connecting, t => ["accept", "reject", "update", "close", "application", "response"].contains t
  | .connected, t => ["update", "close", "application", "response"].contains t
  | .closing, t => ["response"].contains t

/-- The outbound send methods of client/SwapClient.js. -/
inductive ClientOp where
  | register : ClientOp
  | connectOffer : ClientOp
  | accept : ClientOp
  | reject : ClientOp
  | update : ClientOp
  | close : ClientOp
  | sendApp : ClientOp
deriving Repr, DecidableEq

/-- The message type each client send method emits. -/
def opMessageType : ClientOp → String
  | .register => "register"
  | .connectOffer => "connect"
  | .accept => "accept"
  | .reject => "reject"
  | .update => "update"
  | .close => "close"
  | .sendApp => "application"

/-- Whether a client send method reaches `transport.send` in the given
state.  In client/SwapClient.js only `connectOffer` consults
`stateMachine.canSend` (and throws before sending when it refuses);
`register`, `accept`, `reject`, `update`, `close` and `sendApp` all call
`_sendAndWait` unconditionally, which always writes to the transport. -/
def clientSendsToTransport (st : ClientState) (op : ClientOp) : Bool :=
  match op with
  | .connectOffer => canSend st "connect"
  | _ => true

/-! ### Security manager

Embedding of security/SecurityManager.js together with the
IntegrityProtection and Encryption helpers it delegates to.  The crypto
primitives are passed in as functions: `hmacFn` stands for HMAC-SHA256
under the key imported from the shared secret, and `encFn`/`decFn`
stand for `Encryption.encrypt`/`Encryption.decrypt` under the derived
AES key — including the `JSON.stringify`/`JSON.parse` steps those class
methods perform internally, so `encFn` maps the payload object to a
(ciphertext, iv) pair of base64 strings and `decFn` maps them back.
Lazy key derivation and caching (`init`) only affect which key value
the primitives close over, which the abstraction absorbs. -/

/-- Security configuration (`enabled`, `integrity`, `encryption`; the
`sharedSecret`/`salt` strings only feed key derivation, which is
abstracted into the primitive functions). -/
structure SecConfig where
  enabled : Bool
  integrity : Bool
  encryption : Bool
deriving Repr, DecidableEq

/-- The `security` envelope block of a wire message. -/
structure SecEnv where
  enc : String
  mac : String
  ciphertext : Option String
  iv : Option String
  signature : Option String
deriving Repr, DecidableEq

/-- A wire message: the four base fields, the kind-specific payload
fields (everything except base and `security`), and the optional
envelope. -/
structure SwapMsg where
  version : Int
  source_id : String
  message_id : Int
  message_type : String
  payload : List (String × Json)
  security : Option SecEnv
deriving Repr

/-- JSON rendering of a `security` envelope, fields in the insertion
order in which `prepareOutgoing` populates them (`enc`, `mac`,
`ciphertext`, `iv`, `signature`); absent options produce no field. -/
def secEnvFields (e : SecEnv) : List (String × Json) :=
  [("enc", .str e.enc), ("mac", .str e.mac)]
    ++ (match e.ciphertext with | some c => [("ciphertext", .str c)] | none => [])
    ++ (match e.iv with | some i => [("iv", .str i)] | none => [])
    ++ (match e.signature with | some s => [("signature", .str s)] | none => [])

/-- The JSON object a `SwapMsg` denotes.  Field insertion order follows
the construction in `prepareOutgoing` (base fields, then `security`,
then any plaintext payload); the canonical form sorts keys, so the
order is irrelevant wherever this feeds the HMAC. -/
def msgToJson (m : SwapMsg) : Json :=
  .obj ([("version", .num m.version), ("source_id", .str m.source_id),
         ("message_id", .num m.message_id), ("message_type", .str m.message_type)]
    ++ (match m.security with | some e => [("security", .obj (secEnvFields e))] | none => [])
    ++ m.payload)

/-- The canonical byte string HMAC is computed over
(`IntegrityProtection.canonicalize` of the message object). -/
def signContent (m : SwapMsg) : String := stableStringify (msgToJson m)

/-- Embedding of `SecurityManager.prepareOutgoing`: when enabled, split
off the payload, encrypt it when `encryption` is on (fresh iv from the
primitive), then when `integrity` is on sign the canonical form of the
object before the `signature` field exists and attach the tag. -/
def prepareOutgoing (cfg : SecConfig) (encFn : Json → String × String)
    (hmacFn : String → String) (m : SwapMsg) : SwapMsg :=
  if cfg.enabled = false then m
  else
    let env0 : SecEnv := { enc := if cfg.encryption then "AES-GCM" else "none",
                           mac := if cfg.integrity then "HMAC-SHA256" else "none",
                           ciphertext := none, iv := none, signature := none }
    let stage :=
      if cfg.encryption then
        let ctiv := encFn (Json.obj m.payload)
        { m with payload := [],
                 security := some { env0 with ciphertext := some ctiv.1, iv := some ctiv.2 } }
      else { m with security := some env0 }
    if cfg.integrity then
      match stage.security with
      | some env =>
          { stage with security := some { env with signature := some (hmacFn (signContent stage)) } }
      | none => stage
    else stage

/-- JS object spread of the decrypted payload into the rebuilt message:
an object contributes its fields; a non-object decryption result
contributes no string-keyed fields (the decrypt path only ever receives
what `encrypt` produced, which is an object). -/
def jsSpreadFields : Json → List (String × Json)
  | .obj fs => fs
  | _ => []

/-- Embedding of `SecurityManager.unpackIncoming`: pass through when no
envelope is present or security is disabled; otherwise verify the HMAC
over the object with the `signature` field removed (when `integrity` is
on and a signature is carried), then decrypt and re-merge the payload
(when `encryption` is on and `ciphertext`/`iv` are carried).  A
verification mismatch or decryption failure is the thrown error. -/
def unpackIncoming (cfg : SecConfig) (decFn : String → String → Option Json)
    (hmacFn : String → String) (m : SwapMsg) : Except String SwapMsg :=
  match m.security with
  | none => .ok m
  | some sec =>
      if cfg.enabled = false then .ok m
      else
        let contentOk : Bool :=
          match (if cfg.integrity then sec.signature else none) with
          | some s =>
              hmacFn (signContent { m with security := some { sec with signature := none } }) == s
          | none => true
        if contentOk then
          if cfg.encryption then
            match sec.ciphertext, sec.iv with
            | some ct, some ivv =>
                match decFn ct ivv with
                | some p => .ok { version := m.version, source_id := m.source_id,
                                  message_id := m.message_id, message_type := m.message_type,
                                  payload := jsSpreadFields p, security := none }
                | none => .error "SecurityManager: decrypt failed"
            | _, _ => .ok m
          else .ok m
        else .error "SecurityManager: signature verification failed"

/-! ### Relay core

Embedding of the parts of core/SwapServer.js the claims are about.
Transports (`ws` handles) are opaque naturals; `this.endpoints`,
`this.registeredEndpoints`, `this.activeSessions` and the matcher
registry are association lists.  The per-source `message_id` counters
of the message factory are modeled by the server counter threaded
through where the server synthesizes messages. -/

/-- Advertised `capabilities.security` of a registered endpoint
(absent when the endpoint did not advertise the block). -/
structure SecCaps where
  integrity : Bool
  encryption : Bool
deriving Repr, DecidableEq

/-- Embedding of the capability test
`!!caps?.security?.integrity || !!caps?.security?.encryption`. -/
def wantsSec : Option SecCaps → Bool
  | some c => c.integrity || c.encryption
  | none => false

/-- A `registeredEndpoints` entry `{ ws, criteria, capabilities }`. -/
structure RegEntry where
  ws : Nat
  criteria : List Criterion
  caps : Option SecCaps
deriving Repr

/-- The relay state touched by connection close handling. -/
structure RelayState where
  endpoints : List (String × Nat)
  matcher : List (String × List Criterion)
  registered : List (String × RegEntry)
  sessions : List (String × SessionRec)
  serverSource : String
  serverCounter : Int

/-- The wire form of a `close` synthesized by `_closeSessionsFor`:
`new CloseMessage(source, { source_id: this.serverSource })`, so
`source_id` is the SERVER's id and `target` is the disconnected
endpoint; `message_id` comes from the server's per-source counter. -/
structure CloseWire where
  version : Int
  source_id : String
  message_id : Int
  message_type : String
  target : String
deriving Repr, DecidableEq

/-- Embedding of `SwapServer._closeSessionsFor(source)`: walk the
session table; every session involving `source` is deleted, and when
the surviving peer still has a transport a synthesized close is sent to
it.  Returns (remaining sessions, sent (socket, message) pairs, new
server counter). -/
def closeSessionsFor (endpoints : List (String × Nat)) (serverSource : String) (counter : Int)
    (src : String) : List (String × SessionRec) →
      List (String × SessionRec) × List (Nat × CloseWire) × Int
  | [] => ([], [], counter)
  | (sid, s) :: rest =>
      if s.a = src ∨ s.b = src then
        let other := if s.a = src then s.b else s.a
        match List.lookup other endpoints with
        | some sock =>
            let r := closeSessionsFor endpoints serverSource (counter + 1) src rest
            (r.1, (sock, { version := 1, source_id := serverSource, message_id := counter + 1,
                           message_type := "close", target := src }) :: r.2.1, r.2.2)
        | none => closeSessionsFor endpoints serverSource counter src rest
      else
        let r := closeSessionsFor endpoints serverSource counter src rest
        ((sid, s) :: r.1, r.2.1, r.2.2)

/-- Worker for `onTransportClose`: the `for ... of this.endpoints`
loop of the `ws.on('close')` handler, iterating over the entry
snapshot.  For every source bound to the closed socket: delete it from
the routing table, the matcher registry and the registrations, then run
`_closeSessionsFor` (which consults the routing table after the
deletion, as the source does). -/
def onTransportCloseGo (ws : Nat) :
    List (String × Nat) → RelayState → RelayState × List (Nat × CloseWire)
  | [], st => (st, [])
  | (src, sock) :: rest, st =>
      if sock = ws then
        let st1 : RelayState := { st with endpoints := mapDelete src st.endpoints,
                                          matcher := mapDelete src st.matcher,
                                          registered := mapDelete src st.registered }
        let r := closeSessionsFor st1.endpoints st.serverSource st.serverCounter src st.sessions
        let st2 : RelayState := { st1 with sessions := r.1, serverCounter := r.2.2 }
        let rest2 := onTransportCloseGo ws rest st2
        (rest2.1, r.2.1 ++ rest2.2)
      else onTransportCloseGo ws rest st

/-- Embedding of the relay's `ws.on('close')` handler. -/
def onTransportClose (st : RelayState) (ws : Nat) : RelayState × List (Nat × CloseWire) :=
  onTransportCloseGo ws st.endpoints st

/-- The session-table effect of `SwapServer._onAccept`: nothing when
the target has no transport (the handler answers `target_unknown`),
else `activeSessions.set(uuidv4(), { a: sender, b: target,
state: 'active' })` with `uuid` standing for the fresh `uuidv4()`. -/
def onAcceptSessions (endpoints : List (String × Nat)) (uuid : String) (source target : String)
    (sessions : List (String × SessionRec)) : List (String × SessionRec) :=
  match List.lookup target endpoints with
  | none => sessions
  | some _ => mapSet uuid { a := source, b := target } sessions

/-- A `ResponseMessage` as written to the wire: `response_to`,
`status`, `reason` and, when the constructor receives a truthy error,
the `error` problem object.  Base fields come from the `SwapMessage`
constructor (`version` 1, the given `source_id`, the next counter value
as `message_id`). -/
def responseMessage (serverSource : String) (mid : Int) (responseTo : Int) (status : Int)
    (reason : String) (error : Option (List (String × Json))) : SwapMsg :=
  { version := 1, source_id := serverSource, message_id := mid, message_type := "response",
    payload := [("response_to", .num responseTo), ("status", .num status), ("reason", .str reason)]
      ++ (match error with | some p => [("error", .obj p)] | none => []),
    security := none }

/-- Embedding of `ProblemDetails.create`. -/
def problemCreate (t title detail : String) (status : Int) : List (String × Json) :=
  [("type", .str ("http://forge.3gpp.org/sa4/swap/" ++ t ++ ".html")), ("title", .str title),
   ("detail", .str detail), ("status", .num status)]

/-- The four predefined `ProblemDetails` factories, by error type. -/
def problemDetailsFor : String → Option (List (String × Json))
  | "message_unknown" =>
      some (problemCreate "message_unknown" "Message type unknown"
        "The message type is not recognized" 400)
  | "message_malformatted" =>
      some (problemCreate "message_malformatted" "Message malformatted"
        "The message does not conform to the schema" 400)
  | "target_unknown" =>
      some (problemCreate "target_unknown" "Target cannot be located"
        "No endpoint matches the provided criteria" 404)
  | "unauthorized" =>
      some (problemCreate "unauthorized" "Unauthorized"
        "Authentication or authorization failed" 401)
  | _ => none

/-- Embedding of `SwapServer._sendError`: build the problem object
(predefined factory or inline fallback), overwrite its `detail` when a
truthy detail is given, and write a status-400 `ResponseMessage`
directly to the socket — never through `prepareOutgoing`, so the frame
carries no `security` envelope regardless of configuration. -/
def sendErrorFrame (serverSource : String) (mid : Int) (responseTo : Int) (errorType : String)
    (detail : String) : SwapMsg :=
  let problem0 := match problemDetailsFor errorType with
    | some p => p
    | none => [("type", .str errorType), ("title", .str "Bad Request"),
               ("status", .num 400), ("detail", .str detail)]
  let problem := if detail ≠ "" then mapSet "detail" (.str detail) problem0 else problem0
  responseMessage serverSource mid responseTo 400 "Bad Request" (some problem)

/-- Embedding of `SwapServer._ack`: a status-200 `ResponseMessage`
correlated to the handled message, passed through `prepareOutgoing`
exactly when server security is enabled and the sender's registration
advertised security support. -/
def ackFrame (cfg : SecConfig) (encFn : Json → String × String) (hmacFn : String → String)
    (serverSource : String) (mid : Int) (origMessageId : Int) (caps : Option SecCaps) : SwapMsg :=
  let resp := responseMessage serverSource mid origMessageId 200 "OK" none
  if cfg.enabled && wantsSec caps then prepareOutgoing cfg encFn hmacFn resp else resp

/-- Embedding of the securing decision in `SwapServer._forwardTo`: the
forwarded object goes through `prepareOutgoing` exactly when the target
advertised security support and server security is enabled. -/
def forwardFrame (cfg : SecConfig) (encFn : Json → String × String) (hmacFn : String → String)
    (targetCaps : Option SecCaps) (m : SwapMsg) : SwapMsg :=
  if wantsSec targetCaps && cfg.enabled then prepareOutgoing cfg encFn hmacFn m else m

/-! ### Inbound frame handling at the relay

Embedding of the `ws.on('message')` handler of `SwapServer`, at the
JSON level.  The input is the outcome of `JSON.parse` on the frame:
`none` when the bytes are not JSON (the parse threw), `some j`
otherwise.  `unpack` is `security.unpackIncoming` at the Json level and
`ajvValid` stands for the compiled per-type Ajv schema validators. -/

/-- JS truthiness of a JSON value. -/
def jsTruthy : Json → Bool
  | .null => false
  | .bool b => b
  | .num n => n ≠ 0
  | .str s => s ≠ ""
  | .arr _ => true
  | .obj _ => true

/-- JS property read for the keys the handler uses: objects look the
key up, primitives and arrays yield `undefined` for these keys.
Reading a property of `null` throws — the call sites model that case
explicitly. -/
def getProp : Json → String → Option Json
  | .obj fs, k => List.lookup k fs
  | _, _ => none

/-- The value of `message.message_id || 0`. -/
def midOr0 (m : Json) : Json :=
  match getProp m "message_id" with
  | some v => if jsTruthy v then v else .num 0
  | none => .num 0

/-- The eight message type literals (utils/Validator.js keys its
compiled validators by them). -/
def messageTypeNames : List String :=
  ["register", "response", "connect", "accept", "reject", "update", "close", "application"]

/-- Embedding of `validateMessageShape` down to the Ajv call: falsy or
non-object input fails the guard, a missing/unknown `message_type`
finds no validator, otherwise the compiled schema check decides. -/
def validateShape (ajvValid : String → Json → Bool) (m : Json) : Bool :=
  if jsTruthy m = false then false
  else match m with
    | .obj _ =>
        (match getProp m "message_type" with
         | some (.str mt) => if messageTypeNames.contains mt then ajvValid mt m else false
         | _ => false)
    | _ => false

/-- What the `ws.on('message')` handler does with one inbound frame. -/
inductive WsOutcome where
  | sentError (responseTo : Json) (errType : String) : WsOutcome
  | dispatched (m : Json) : WsOutcome
  | threw : WsOutcome
deriving Repr

/-- Embedding of the relay's message handler: non-JSON frames get a
`message_malformatted` error with `response_to 0`; a present truthy
`security` triggers envelope unpack, whose failure gets the error with
`message.message_id || 0`; then shape validation — whose failure path
evaluates `message.message_id` and therefore THROWS when the parsed
message is `null` (a TypeError in the handler, nothing is sent). -/
def onWsMessage (unpack : Json → Except String Json) (ajvValid : String → Json → Bool)
    (parsed : Option Json) : WsOutcome :=
  match parsed with
  | none => .sentError (.num 0) "message_malformatted"
  | some m0 =>
      let hasSec := jsTruthy m0 &&
        (match getProp m0 "security" with
         | some s => jsTruthy s
         | none => false)
      match (if hasSec then unpack m0 else .ok m0) with
      | .error _ => .sentError (midOr0 m0) "message_malformatted"
      | .ok m =>
          if validateShape ajvValid m then .dispatched m
          else
            match m with
            | .null => .threw
            | _ => .sentError (midOr0 m) "message_malformatted"

/-- The value a claim calls the canonical JSON of a criterion value:
serialization after sorting object keys recursively at every depth. -/
def canonicalJsonStr (j : Json) : String := jsonStringify (canonAll j)

/-- The send table claimed by the specification, state by state. -/
def specAllowedSends : ClientState → List String
  | .idle => ["register", "connect"]
  | .connecting => ["accept", "reject", "update", "close", "application", "response"]
  | .connected => ["update", "close", "application", "response"]
  | .closing => ["response"]

/-- The surviving peer of a session one of whose members is `src`. -/
def peerOf (src : String) (s : SessionRec) : String := if s.a = src then s.b else s.a

/-- A two-endpoint relay state with one active session, used to
exercise the disconnect path. -/
def c1exampleState : RelayState :=
  { endpoints := [("alice-0123456789", 1), ("bob-0123456789x", 2)],
    matcher := [("alice-0123456789", []), ("bob-0123456789x", [])],
    registered := [("alice-0123456789", { ws := 1, criteria := [], caps := none }),
                   ("bob-0123456789x", { ws := 2, criteria := [], caps := none })],
    sessions := [("sid-1", { a := "bob-0123456789x", b := "alice-0123456789" })],
    serverSource := "server-0123456789",
    serverCounter := 0 }

/-! ### Supporting lemmas and claim theorems -/

theorem charsLtb_asymm : ∀ {x y : List Char}, charsLtb x y = true → charsLtb y x = false
  | [], [], h => by simp [charsLtb] at h
  | [], _ :: _, _ => by simp [charsLtb]
  | _ :: _, [], h => by simp [charsLtb] at h
  | a :: as, b :: bs, h => by
      simp only [charsLtb] at h ⊢
      by_cases hab : a.toNat < b.toNat
      · simp [hab, Nat.lt_asymm hab]
      · by_cases hba : b.toNat < a.toNat
        · simp [hab, hba] at h
        · simp only [hab, hba, if_false] at h ⊢
          exact charsLtb_asymm h

theorem charsLtb_connex : ∀ {x y : List Char}, charsLtb x y = false → charsLtb y x = false → x = y
  | [], [], _, _ => rfl
  | [], _ :: _, h, _ => by simp [charsLtb] at h
  | _ :: _, [], _, h2 => by simp [charsLtb] at h2
  | a :: as, b :: bs, h, h2 => by
      simp only [charsLtb] at h h2
      by_cases hab : a.toNat < b.toNat
      · simp [hab] at h
      · by_cases hba : b.toNat < a.toNat
        · simp [hba, hab] at h2
        · simp only [hab, hba, if_false] at h h2
          have hchar : a = b := by
            apply Char.ext
            apply UInt32.ext
            have hn : a.toNat = b.toNat := Nat.le_antisymm (Nat.not_lt.mp hba) (Nat.not_lt.mp hab)
            simpa [Char.toNat, UInt32.toNat] using hn
          rw [hchar, charsLtb_connex h h2]

theorem charsLtb_trans : ∀ {x y z : List Char},
    charsLtb x y = true → charsLtb y z = true → charsLtb x z = true
  | [], [], _, h1, _ => by simp [charsLtb] at h1
  | [], _ :: _, [], _, h2 => by simp [charsLtb] at h2
  | [], _ :: _, _ :: _, _, _ => by simp [charsLtb]
  | _ :: _, [], _, h1, _ => by simp [charsLtb] at h1
  | _ :: _, _ :: _, [], _, h2 => by simp [charsLtb] at h2
  | a :: as, b :: bs, c :: cs, h1, h2 => by
      simp only [charsLtb] at h1 h2 ⊢
      rcases Nat.lt_trichotomy a.toNat b.toNat with hab | hab | hab
      · rcases Nat.lt_trichotomy b.toNat c.toNat with hbc | hbc | hbc
        · simp [Nat.lt_trans hab hbc]
        · rw [← hbc]; simp [hab]
        · simp [Nat.lt_asymm hbc, hbc] at h2
      · rcases Nat.lt_trichotomy b.toNat c.toNat with hbc | hbc | hbc
        · have hac : a.toNat < c.toNat := by omega
          simp [hac]
        · have e1 : ¬ a.toNat < b.toNat := by omega
          have e2 : ¬ b.toNat < a.toNat := by omega
          have e3 : ¬ b.toNat < c.toNat := by omega
          have e4 : ¬ c.toNat < b.toNat := by omega
          have e5 : ¬ a.toNat < c.toNat := by omega
          have e6 : ¬ c.toNat < a.toNat := by omega
          simp only [e1, e2, if_false] at h1
          simp only [e3, e4, if_false] at h2
          simp only [e5, e6, if_false]
          exact charsLtb_trans h1 h2
        · simp [Nat.lt_asymm hbc, hbc] at h2
      · simp [Nat.lt_asymm hab, hab] at h1

theorem strLeb_total (a b : String) : strLeb a b = true ∨ strLeb b a = true := by
  unfold strLeb
  by_cases h : charsLtb b.data a.data = true
  · right; simp [charsLtb_asymm h]
  · left; simp at h; simp [h]

theorem strLeb_antisymm {a b : String} (h1 : strLeb a b = true) (h2 : strLeb b a = true) :
    a = b := by
  unfold strLeb at h1 h2
  simp only [Bool.not_eq_true'] at h1 h2
  have hd : b.data = a.data := charsLtb_connex h1 h2
  cases a; cases b
  exact congrArg String.mk hd.symm

theorem strLeb_trans {a b c : String} (h1 : strLeb a b = true) (h2 : strLeb b c = true) :
    strLeb a c = true := by
  unfold strLeb at h1 h2 ⊢
  simp only [Bool.not_eq_true'] at h1 h2 ⊢
  rcases Bool.eq_false_or_eq_true (charsLtb c.data a.data) with h | h
  · rcases Bool.eq_false_or_eq_true (charsLtb a.data b.data) with hab | hab
    · have hcb : charsLtb c.data b.data = true := charsLtb_trans h hab
      rw [hcb] at h2; cases h2
    · have hba : a.data = b.data := charsLtb_connex hab h1
      rw [hba] at h; rw [h] at h2; cases h2
  · exact h

/-! Sorting lemmas (generic in the element type and key projection). -/

theorem mem_insertByKey {α : Type} (key : α → String) (x y : α) (l : List α) :
    y ∈ insertByKey key x l ↔ y = x ∨ y ∈ l := by
  induction l with
  | nil => simp [insertByKey]
  | cons hd tl ih =>
      by_cases h : strLeb (key x) (key hd)
      · simp [insertByKey, h]
      · simp [insertByKey, h, ih]
        tauto

theorem pairwise_insertByKey {α : Type} (key : α → String) (x : α) {l : List α}
    (hl : l.Pairwise (fun a b => strLeb (key a) (key b) = true)) :
    (insertByKey key x l).Pairwise (fun a b => strLeb (key a) (key b) = true) := by
  induction l with
  | nil => simp [insertByKey]
  | cons hd tl ih =>
      rcases List.pairwise_cons.mp hl with ⟨hhd, htl⟩
      by_cases h : strLeb (key x) (key hd)
      · have e : insertByKey key x (hd :: tl) = x :: hd :: tl := by simp [insertByKey, h]
        rw [e]
        refine List.pairwise_cons.mpr ⟨?_, hl⟩
        intro y hy
        rcases List.mem_cons.mp hy with rfl | hy
        · exact h
        · exact strLeb_trans h (hhd y hy)
      · have e : insertByKey key x (hd :: tl) = hd :: insertByKey key x tl := by
          simp [insertByKey, h]
        rw [e]
        refine List.pairwise_cons.mpr ⟨?_, ih htl⟩
        intro y hy
        rcases (mem_insertByKey key x y tl).mp hy with hxy | hy
        · rw [hxy]
          rcases strLeb_total (key x) (key hd) with h1 | h1
          · exact absurd h1 h
          · exact h1
        · exact hhd y hy

theorem sortByKey_pairwise {α : Type} (key : α → String) (l : List α) :
    (sortByKey key l).Pairwise (fun a b => strLeb (key a) (key b) = true) := by
  induction l with
  | nil => simp [sortByKey]
  | cons hd tl ih => exact pairwise_insertByKey key hd ih

theorem sortByKey_eq_of_pairwise {α : Type} (key : α → String) {l : List α}
    (hl : l.Pairwise (fun a b => strLeb (key a) (key b) = true)) :
    sortByKey key l = l := by
  induction l with
  | nil => rfl
  | cons hd tl ih =>
      rcases List.pairwise_cons.mp hl with ⟨hhd, htl⟩
      rw [sortByKey, ih htl]
      cases tl with
      | nil => rfl
      | cons hd2 tl2 =>
          have : strLeb (key hd) (key hd2) = true := hhd hd2 (by simp)
          simp [insertByKey, this]

theorem sortByKey_idem {α : Type} (key : α → String) (l : List α) :
    sortByKey key (sortByKey key l) = sortByKey key l :=
  sortByKey_eq_of_pairwise key (sortByKey_pairwise key l)

theorem insertByKey_map {α β : Type} (key1 : α → String) (key2 : β → String) (f : α → β)
    (hf : ∀ a, key2 (f a) = key1 a) (x : α) (l : List α) :
    (insertByKey key1 x l).map f = insertByKey key2 (f x) (l.map f) := by
  induction l with
  | nil => simp [insertByKey]
  | cons hd tl ih =>
      by_cases h : strLeb (key1 x) (key1 hd)
      · simp [insertByKey, h, hf]
      · simp [insertByKey, h, hf, ih]

theorem sortByKey_map {α β : Type} (key1 : α → String) (key2 : β → String) (f : α → β)
    (hf : ∀ a, key2 (f a) = key1 a) (l : List α) :
    (sortByKey key1 l).map f = sortByKey key2 (l.map f) := by
  induction l with
  | nil => rfl
  | cons hd tl ih => rw [sortByKey, insertByKey_map key1 key2 f hf, ih, List.map_cons, sortByKey]

theorem renderFields_eq_map (l : List (String × Json)) :
    renderFields l = l.map (fun kv => (kv.1, stableStringify kv.2)) := by
  induction l with
  | nil => rfl
  | cons hd tl ih => cases hd; simp [renderFields, ih]

theorem canonNoArrFields_eq_map (l : List (String × Json)) :
    canonNoArrFields l = l.map (fun kv => (kv.1, canonNoArr kv.2)) := by
  induction l with
  | nil => rfl
  | cons hd tl ih => cases hd; simp [canonNoArrFields, ih]

mutual

/-- Sorting keys of objects not nested inside arrays does not change
the canonical serialization. -/
theorem stableStringify_canonNoArr (j : Json) :
    stableStringify (canonNoArr j) = stableStringify j := by
  cases j with
  | obj fs =>
      have hrender : ∀ m : List (String × Json),
          renderFields (sortFields m) = sortByKey Prod.fst (renderFields m) := by
        intro m
        rw [renderFields_eq_map, renderFields_eq_map, sortFields,
          sortByKey_map Prod.fst Prod.fst (fun kv => (kv.1, stableStringify kv.2)) (fun a => rfl)]
      rw [canonNoArr, stableStringify, stableStringify, hrender, sortByKey_idem,
        renderFields_canonNoArrFields fs]
  | null => rfl
  | bool b => rfl
  | num n => rfl
  | str s => rfl
  | arr xs => rfl

/-- Field-list companion of `stableStringify_canonNoArr`. -/
theorem renderFields_canonNoArrFields (l : List (String × Json)) :
    renderFields (canonNoArrFields l) = renderFields l := by
  cases l with
  | nil => rfl
  | cons hd tl =>
      cases hd with
      | mk k v =>
          rw [canonNoArrFields, renderFields, renderFields,
            stableStringify_canonNoArr v, renderFields_canonNoArrFields tl]

end

theorem foldl_max_le (l : List Nat) (a : Nat) : a ≤ l.foldl max a ∧ ∀ x ∈ l, x ≤ l.foldl max a := by
  induction l generalizing a with
  | nil => simp
  | cons hd tl ih =>
      refine ⟨?_, ?_⟩
      · exact le_trans (le_max_left a hd) (ih (max a hd)).1
      · intro x hx
        rcases List.mem_cons.mp hx with rfl | hx
        · exact le_trans (le_max_right a x) (ih (max a x)).1
        · exact (ih (max a hd)).2 x hx

theorem foldl_max_mem (l : List Nat) (a : Nat) : l.foldl max a = a ∨ l.foldl max a ∈ l := by
  induction l generalizing a with
  | nil => left; rfl
  | cons hd tl ih =>
      rcases ih (max a hd) with h | h
      · rw [List.foldl_cons, h]
        rcases Nat.le_total a hd with hle | hle
        · right
          rw [Nat.max_eq_right hle]
          simp
        · left
          rw [Nat.max_eq_left hle]
      · right
        rw [List.foldl_cons]
        exact List.mem_cons_of_mem hd h

theorem mapSet_idem {α : Type} (k : String) (v : α) (l : List (String × α)) :
    mapSet k v (mapSet k v l) = mapSet k v l := by
  induction l with
  | nil => simp [mapSet]
  | cons hd tl ih =>
      by_cases h : hd.1 = k
      · cases hd
        simp_all [mapSet]
      · cases hd
        simp_all [mapSet]

theorem lookup_mapDelete_self {α : Type} (k : String) (l : List (String × α)) :
    List.lookup k (mapDelete k l) = none := by
  induction l with
  | nil => rfl
  | cons hd tl ih =>
      rcases hd with ⟨k2, v2⟩
      by_cases h : k2 = k
      · have e : mapDelete k ((k2, v2) :: tl) = mapDelete k tl := by
          simp [mapDelete, List.filter, h]
        rw [e]
        exact ih
      · have e : mapDelete k ((k2, v2) :: tl) = (k2, v2) :: mapDelete k tl := by
          simp [mapDelete, List.filter, h]
        rw [e]
        simp [List.lookup, beq_eq_false_iff_ne.mpr (Ne.symm h), ih]

theorem smKey_comm (a b : String) : smKey a b = smKey b a := by
  unfold smKey
  rcases Bool.eq_false_or_eq_true (strLeb a b) with h1 | h1 <;>
    rcases Bool.eq_false_or_eq_true (strLeb b a) with h2 | h2
  · have hab := strLeb_antisymm h1 h2
    subst hab
    rfl
  · simp [h1, h2]
  · simp [h1, h2]
  · rcases strLeb_total a b with h | h
    · rw [h] at h1; cases h1
    · rw [h] at h2; cases h2

/-- Claim C8 (amended): the standalone SessionManager keys sessions by
the two source ids sorted (JS string order) and joined with a bar, so
`create` is idempotent by key and `get`/`remove` are symmetric in the
two endpoints; the relay server itself, however, keeps `activeSessions`
under fresh uuid keys (see the counterexample). -/
theorem c8_session_manager_pair_keys (a b : String) (ss : List (String × SessionRec)) :
    smKey a b = smKey b a ∧
    smGet a b ss = smGet b a ss ∧
    smRemove a b ss = smRemove b a ss ∧
    smCreate a b (smCreate a b ss) = smCreate a b ss := by
  refine ⟨smKey_comm a b, ?_, ?_, ?_⟩
  · unfold smGet; rw [smKey_comm a b]
  · unfold smRemove; rw [smKey_comm a b]
  · unfold smCreate; exact mapSet_idem _ _ _

/-- Claim C8 witness at concrete endpoints. -/
theorem c8_session_manager_pair_keys_witness :
    smKey "alice-0123456789" "bob-0123456789x" = smKey "bob-0123456789x" "alice-0123456789" ∧
    smGet "alice-0123456789" "bob-0123456789x" [] = smGet "bob-0123456789x" "alice-0123456789" [] ∧
    smRemove "alice-0123456789" "bob-0123456789x" [] =
      smRemove "bob-0123456789x" "alice-0123456789" [] ∧
    smCreate "alice-0123456789" "bob-0123456789x"
        (smCreate "alice-0123456789" "bob-0123456789x" []) =
      smCreate "alice-0123456789" "bob-0123456789x" [] :=
  c8_session_manager_pair_keys "alice-0123456789" "bob-0123456789x" []

/-- Claim C8 counterexample: the relay's `activeSessions` table
(`SwapServer._onAccept`) is keyed by fresh uuids, so handling `accept`
twice for the same unordered pair leaves TWO entries, not one — the
claimed pair-keyed idempotence fails for the relay's own table. -/
theorem c8_counterexample :
    onAcceptSessions [("bob-0123456789x", 2)] "uuid-2" "alice-0123456789" "bob-0123456789x"
        (onAcceptSessions [("bob-0123456789x", 2)] "uuid-1" "alice-0123456789" "bob-0123456789x"
          []) =
      [("uuid-1", { a := "alice-0123456789", b := "bob-0123456789x" }),
       ("uuid-2", { a := "alice-0123456789", b := "bob-0123456789x" })] ∧
    (onAcceptSessions [("bob-0123456789x", 2)] "uuid-2" "alice-0123456789" "bob-0123456789x"
        (onAcceptSessions [("bob-0123456789x", 2)] "uuid-1" "alice-0123456789" "bob-0123456789x"
          [])).length = 2 :=
  ⟨rfl, rfl⟩

/-- Claim C9: with the SecurityManager disabled, `unpackIncoming` is
the identity (wrapped in success): no verification and no decryption is
attempted even when the message carries a full security envelope. -/
theorem c9_unpack_disabled (cfg : SecConfig) (decFn : String → String → Option Json)
    (hmacFn : String → String) (m : SwapMsg) (h : cfg.enabled = false) :
    unpackIncoming cfg decFn hmacFn m = .ok m := by
  unfold unpackIncoming
  cases hm : m.security with
  | none => rfl
  | some sec => simp [h]

/-- Claim C9 witness: a message carrying signature and ciphertext
passes through unchanged when `enabled` is false. -/
theorem c9_unpack_disabled_witness :
    unpackIncoming { enabled := false, integrity := true, encryption := true }
      (fun _ _ => none) (fun s => s)
      { version := 1, source_id := "alice-0123456789", message_id := 3,
        message_type := "connect", payload := [("offer", Json.str "v=0..o")],
        security := some { enc := "AES-GCM", mac := "HMAC-SHA256", ciphertext := some "Y3Q=",
                           iv := some "aXY=", signature := some "c2ln" } } =
    .ok { version := 1, source_id := "alice-0123456789", message_id := 3,
          message_type := "connect", payload := [("offer", Json.str "v=0..o")],
          security := some { enc := "AES-GCM", mac := "HMAC-SHA256", ciphertext := some "Y3Q=",
                             iv := some "aXY=", signature := some "c2ln" } } :=
  c9_unpack_disabled _ _ _ _ rfl

theorem prepareOutgoing_secured (cfg : SecConfig) (encFn : Json → String × String)
    (hmacFn : String → String) (m : SwapMsg) (h : cfg.enabled = true) :
    (prepareOutgoing cfg encFn hmacFn m).security.isSome = true := by
  unfold prepareOutgoing
  rw [h]
  by_cases he : cfg.encryption <;> by_cases hi : cfg.integrity <;> simp [he, hi]

/-- Claim C10: the relay's error path writes its `ResponseMessage`
directly, without a security envelope, whatever the configuration and
the recipient's advertised capabilities; the acknowledgement and
forwarding paths are the ones that secure the frame (and do, whenever
server security is enabled and the peer advertised support). -/
theorem c10_error_path_unsecured (cfg : SecConfig) (encFn : Json → String × String)
    (hmacFn : String → String) (serverSource : String) (mid responseTo origMid : Int)
    (errorType detail : String) (caps : Option SecCaps)
    (hEnabled : cfg.enabled = true) (hCaps : wantsSec caps = true) :
    (sendErrorFrame serverSource mid responseTo errorType detail).security = none ∧
    (ackFrame cfg encFn hmacFn serverSource mid origMid caps).security.isSome = true ∧
    ∀ m : SwapMsg, (forwardFrame cfg encFn hmacFn caps m).security.isSome = true := by
  refine ⟨?_, ?_, ?_⟩
  · simp [sendErrorFrame, responseMessage]
  · simp [ackFrame, hEnabled, hCaps, prepareOutgoing_secured cfg encFn hmacFn _ hEnabled]
  · intro m
    simp [forwardFrame, hEnabled, hCaps, prepareOutgoing_secured cfg encFn hmacFn m hEnabled]

/-- Claim C10 witness at a concrete enabled configuration and
advertised capabilities. -/
theorem c10_error_path_unsecured_witness :
    (sendErrorFrame "server-0123456789" 7 3 "message_malformatted" "Invalid JSON").security =
      none ∧
    (ackFrame { enabled := true, integrity := true, encryption := false }
        (fun _ => ("Y3Q=", "aXY=")) (fun s => s) "server-0123456789" 7 3
        (some { integrity := true, encryption := false })).security.isSome = true ∧
    ∀ m : SwapMsg,
      (forwardFrame { enabled := true, integrity := true, encryption := false }
        (fun _ => ("Y3Q=", "aXY=")) (fun s => s)
        (some { integrity := true, encryption := false }) m).security.isSome = true :=
  c10_error_path_unsecured { enabled := true, integrity := true, encryption := false }
    (fun _ => ("Y3Q=", "aXY=")) (fun s => s) "server-0123456789" 7 3 7 "message_malformatted"
    "Invalid JSON" (some { integrity := true, encryption := false }) rfl rfl

/-- Claim C6 (amended): the state machine's `canSend` table is exactly
the claimed one, but the client runtime enforces it only for `connect`
(`connectOffer` throws before touching the transport when refused);
every other send method writes to the transport regardless of state. -/
theorem c6_send_gating (st : ClientState) (t : String) :
    (canSend st t = true ↔ t ∈ specAllowedSends st) ∧
    clientSendsToTransport st ClientOp.connectOffer = canSend st "connect" ∧
    ∀ op : ClientOp, op ≠ ClientOp.connectOffer → clientSendsToTransport st op = true := by
  refine ⟨?_, rfl, ?_⟩
  · cases st <;> simp [canSend, specAllowedSends]
  · intro op hop
    cases op with
    | connectOffer => exact absurd rfl hop
    | register => rfl
    | accept => rfl
    | reject => rfl
    | update => rfl
    | close => rfl
    | sendApp => rfl

/-- Claim C6 witness: a send the table forbids (`register` while
`connected`) still reaches the transport. -/
theorem c6_send_gating_witness :
    clientSendsToTransport ClientState.connected ClientOp.register = true :=
  (c6_send_gating ClientState.connected "register").2.2 ClientOp.register (by decide)

/-- Claim C6 counterexample: in state `closing` only `response` is
permitted by the table, yet the client's `accept` method sends anyway —
the disallowed send does reach the transport instead of failing
locally. -/
theorem c6_counterexample :
    canSend ClientState.closing "accept" = false ∧
    clientSendsToTransport ClientState.closing ClientOp.accept = true :=
  ⟨rfl, rfl⟩

/-- Claim C5 (amended): the canonical serialization used for signing
sorts object keys recursively through directly nested objects, but
values inside ARRAYS are serialized by plain `JSON.stringify` in their
original key order; consequently the canonical string is invariant
under key reordering at every depth not inside an array (and arrays
keep their element order). -/
theorem c5_canonical_serialization :
    (∀ xs : List Json, stableStringify (Json.arr xs) = jsonStringify (Json.arr xs)) ∧
    ∀ j1 j2 : Json, canonNoArr j1 = canonNoArr j2 → stableStringify j1 = stableStringify j2 := by
  refine ⟨fun xs => rfl, fun j1 j2 h => ?_⟩
  rw [← stableStringify_canonNoArr j1, ← stableStringify_canonNoArr j2, h]

/-- Claim C5 witness: two objects differing only in (non-array) key
order canonicalize identically. -/
theorem c5_canonical_serialization_witness :
    stableStringify (Json.obj [("b", Json.num 2), ("a", Json.obj [("y", Json.null),
        ("x", Json.num 1)])]) =
      stableStringify (Json.obj [("a", Json.obj [("x", Json.num 1), ("y", Json.null)]),
        ("b", Json.num 2)]) :=
  c5_canonical_serialization.2 _ _ rfl

/-- Claim C5 counterexample: two objects equal up to key ordering at
every depth (their fully canonicalized forms coincide) whose canonical
byte strings nevertheless differ, because the reordered keys sit on an
object nested inside an array, which `stableStringify` hands to plain
`JSON.stringify` unsorted. -/
theorem c5_counterexample :
    canonAll (Json.obj [("a", Json.arr [Json.obj [("x", Json.num 1), ("w", Json.num 2)]])]) =
      canonAll (Json.obj [("a", Json.arr [Json.obj [("w", Json.num 2), ("x", Json.num 1)]])]) ∧
    stableStringify
        (Json.obj [("a", Json.arr [Json.obj [("x", Json.num 1), ("w", Json.num 2)]])]) ≠
      stableStringify
        (Json.obj [("a", Json.arr [Json.obj [("w", Json.num 2), ("x", Json.num 1)]])]) :=
  ⟨rfl, by decide⟩

/-- Claim C2 (amended): `findMatches` returns an endpoint iff every
query criterion's identity key — `type + '::' + JSON.stringify(value)`,
the ORDER-SENSITIVE serialization, not a canonical form — occurs among
the endpoint's registered criteria keys; the empty query returns every
registered endpoint, in registry order. -/
theorem c2_find_matches (registry : List (String × List Criterion)) (query : List Criterion)
    (e : String) :
    (e ∈ findMatches registry query ↔
      ∃ cs, (e, cs) ∈ registry ∧ ∀ c ∈ query, criterionKey c ∈ criteriaKeys cs) ∧
    findMatches registry [] = registry.map Prod.fst := by
  constructor
  · unfold findMatches
    constructor
    · intro hmem
      rcases List.mem_map.mp hmem with ⟨p, hp, hpe⟩
      rcases List.mem_filter.mp hp with ⟨hpreg, hpok⟩
      rcases p with ⟨e1, cs⟩
      cases hpe
      refine ⟨cs, hpreg, ?_⟩
      intro c hc
      have := (List.all_eq_true.mp hpok) c hc
      simpa [matchesCriteria] using this
    · rintro ⟨cs, hmem, hall⟩
      refine List.mem_map.mpr ⟨(e, cs), List.mem_filter.mpr ⟨hmem, ?_⟩, rfl⟩
      refine List.all_eq_true.mpr ?_
      intro c hc
      simpa [matchesCriteria] using hall c hc
  · unfold findMatches
    have : (fun p : String × List Criterion => matchesCriteria [] p.2) = fun _ => true := by
      funext p
      rfl
    rw [this, List.filter_true]

/-- Claim C2 witness: an endpoint registered under a two-key criterion
value is returned for the identically-serialized query. -/
theorem c2_find_matches_witness :
    "bob-0123456789x" ∈ findMatches
        [("bob-0123456789x",
          [{ type := "service", value := Json.obj [("a", Json.num 1), ("b", Json.num 2)] }])]
        [{ type := "service", value := Json.obj [("a", Json.num 1), ("b", Json.num 2)] }] :=
  (c2_find_matches
    [("bob-0123456789x",
      [{ type := "service", value := Json.obj [("a", Json.num 1), ("b", Json.num 2)] }])]
    [{ type := "service", value := Json.obj [("a", Json.num 1), ("b", Json.num 2)] }]
    "bob-0123456789x").1.mpr
    ⟨[{ type := "service", value := Json.obj [("a", Json.num 1), ("b", Json.num 2)] }],
      by simp, by decide⟩

/-- Claim C2 counterexample: a query whose criterion value equals the
registered one up to key ordering — identical canonical JSON, so the
claim's subset condition holds — is NOT matched, because the engine
keys criteria by the order-sensitive `JSON.stringify` of the value. -/
theorem c2_counterexample :
    ("service", canonicalJsonStr (Json.obj [("b", Json.num 2), ("a", Json.num 1)])) =
      ("service", canonicalJsonStr (Json.obj [("a", Json.num 1), ("b", Json.num 2)])) ∧
    "bob-0123456789x" ∉ findMatches
        [("bob-0123456789x",
          [{ type := "service", value := Json.obj [("a", Json.num 1), ("b", Json.num 2)] }])]
        [{ type := "service", value := Json.obj [("b", Json.num 2), ("a", Json.num 1)] }] :=
  ⟨rfl, by decide⟩

/-- Claim C4: `selectEndpoint` returns `none` on the empty list, and on
a non-empty list returns a member whose registered criteria count is
maximal among the list — never one with a smaller count — whatever the
random draw. -/
theorem c4_select_endpoint (registry : List (String × List Criterion)) (rand : Nat)
    (ms : List String) :
    selectEndpoint registry rand [] = none ∧
    (ms ≠ [] → ∃ e, selectEndpoint registry rand ms = some e ∧ e ∈ ms ∧
      ∀ x ∈ ms, criteriaCount registry x ≤ criteriaCount registry e) := by
  constructor
  · rfl
  · intro hne
    have hempty : ms.isEmpty = false := by
      cases ms with
      | nil => exact absurd rfl hne
      | cons hd tl => rfl
    set scored := ms.map (fun id => (id, criteriaCount registry id)) with hscored
    set maxC := (scored.map Prod.snd).foldl max 0 with hmaxC
    set top := (scored.filter (fun s => s.2 == maxC)).map Prod.fst with htop
    have hsel : selectEndpoint registry rand ms = top.get? (rand % top.length) := by
      unfold selectEndpoint
      rw [hempty]
      rfl
    have hex : ∃ p ∈ scored, p.2 = maxC := by
      rcases foldl_max_mem (scored.map Prod.snd) 0 with h0 | hmem
      · cases ms with
        | nil => exact absurd rfl hne
        | cons m rest =>
            have hm_mem : (m, criteriaCount registry m) ∈ scored := by
              rw [hscored]
              exact List.mem_map.mpr ⟨m, by simp, rfl⟩
            refine ⟨(m, criteriaCount registry m), hm_mem, ?_⟩
            have hle : criteriaCount registry m ≤ maxC :=
              (foldl_max_le (scored.map Prod.snd) 0).2 _
                (List.mem_map.mpr ⟨_, hm_mem, rfl⟩)
            rw [← hmaxC] at h0
            omega
      · rcases List.mem_map.mp hmem with ⟨p, hp, hp2⟩
        exact ⟨p, hp, hp2⟩
    rcases hex with ⟨p, hp_mem, hp_eq⟩
    have hTopMem : p.1 ∈ top := by
      rw [htop]
      exact List.mem_map.mpr ⟨p, List.mem_filter.mpr ⟨hp_mem, by simp [hp_eq]⟩, rfl⟩
    have htop_prop : ∀ e2, e2 ∈ top → e2 ∈ ms ∧ criteriaCount registry e2 = maxC := by
      intro e2 he2
      rw [htop] at he2
      rcases List.mem_map.mp he2 with ⟨q, hq, hqe⟩
      rcases List.mem_filter.mp hq with ⟨hq_scored, hq_max⟩
      rw [hscored] at hq_scored
      rcases List.mem_map.mp hq_scored with ⟨id, hid, hide⟩
      cases hide
      cases hqe
      exact ⟨hid, by simpa using hq_max⟩
    have hlen : 0 < top.length := List.length_pos.mpr (List.ne_nil_of_mem hTopMem)
    have hidx : rand % top.length < top.length := Nat.mod_lt _ hlen
    refine ⟨top.get ⟨rand % top.length, hidx⟩, ?_, ?_, ?_⟩
    · rw [hsel]
      exact List.get?_eq_get hidx
    · exact (htop_prop _ (List.get_mem _ _ _)).1
    · intro x hx
      have hx_scored : (x, criteriaCount registry x) ∈ scored := by
        rw [hscored]
        exact List.mem_map.mpr ⟨x, hx, rfl⟩
      have hx_le : criteriaCount registry x ≤ maxC :=
        (foldl_max_le (scored.map Prod.snd) 0).2 _ (List.mem_map.mpr ⟨_, hx_scored, rfl⟩)
      rw [(htop_prop _ (List.get_mem _ _ _)).2]
      exact hx_le

/-- Claim C4 witness: with two endpoints of different specificity
registered, selection from the pair picks the two-criteria endpoint. -/
theorem c4_select_endpoint_witness :
    ∃ e, selectEndpoint
        [("b1-0123456789", [{ type := "service", value := Json.str "video" }]),
         ("b2-0123456789", [{ type := "service", value := Json.str "video" },
                            { type := "qos", value := Json.str "high" }])] 0
        ["b1-0123456789", "b2-0123456789"] = some e ∧
      e ∈ ["b1-0123456789", "b2-0123456789"] ∧
      ∀ x ∈ ["b1-0123456789", "b2-0123456789"],
        criteriaCount
            [("b1-0123456789", [{ type := "service", value := Json.str "video" }]),
             ("b2-0123456789", [{ type := "service", value := Json.str "video" },
                                { type := "qos", value := Json.str "high" }])] x ≤
          criteriaCount
            [("b1-0123456789", [{ type := "service", value := Json.str "video" }]),
             ("b2-0123456789", [{ type := "service", value := Json.str "video" },
                                { type := "qos", value := Json.str "high" }])] e :=
  (c4_select_endpoint
    [("b1-0123456789", [{ type := "service", value := Json.str "video" }]),
     ("b2-0123456789", [{ type := "service", value := Json.str "video" },
                        { type := "qos", value := Json.str "high" }])] 0
    ["b1-0123456789", "b2-0123456789"]).2 (by decide)

/-- Claim C7: the non-JSON half of the claim holds — an unparsable
frame is answered with `message_malformatted` and `response_to 0` — and
an ordinary invalid object is answered with the carried `message_id`;
but the frame `"null"` parses as JSON, fails shape validation, and then
the handler evaluates `message.message_id` on `null`, raising a
TypeError: nothing is sent at all, contradicting the claimed error
response. -/
theorem c7_null_frame_throws (unpack : Json → Except String Json)
    (ajvValid : String → Json → Bool) :
    onWsMessage unpack ajvValid none =
      WsOutcome.sentError (Json.num 0) "message_malformatted" ∧
    onWsMessage unpack ajvValid (some (Json.obj [("message_id", Json.num 5)])) =
      WsOutcome.sentError (Json.num 5) "message_malformatted" ∧
    onWsMessage unpack ajvValid (some Json.null) = WsOutcome.threw :=
  ⟨rfl, rfl, rfl⟩

/-- Claim C3: with integrity and encryption enabled, encrypt-then-sign
followed by verify-then-decrypt restores the original message
field-for-field (base fields and payload), the verification step
succeeding; and verification fails for any carried message whose
recomputed HMAC over the canonical signed content differs from its
`signature` — so any content mutation that changes the HMAC output
(every mutation, barring an HMAC collision) is rejected. -/
theorem c3_envelope_roundtrip (encFn : Json → String × String)
    (decFn : String → String → Option Json) (hmacFn : String → String) (m : SwapMsg)
    (hdec : decFn (encFn (Json.obj m.payload)).1 (encFn (Json.obj m.payload)).2 =
      some (Json.obj m.payload))
    (hsec : m.security = none) :
    unpackIncoming { enabled := true, integrity := true, encryption := true } decFn hmacFn
        (prepareOutgoing { enabled := true, integrity := true, encryption := true } encFn
          hmacFn m) = .ok m ∧
    ∀ m2 : SwapMsg, ∀ sec2 : SecEnv, m2.security = some sec2 → ∀ s : String,
      sec2.signature = some s →
      hmacFn (signContent { m2 with security := some { sec2 with signature := none } }) ≠ s →
      unpackIncoming { enabled := true, integrity := true, encryption := true } decFn hmacFn m2 =
        .error "SecurityManager: signature verification failed" := by
  constructor
  · obtain ⟨ver, sid, mid, mt, pl, sec⟩ := m
    simp only at hsec
    subst hsec
    simp only [prepareOutgoing, unpackIncoming, signContent] at hdec ⊢
    simp [hdec, jsSpreadFields]
  · intro m2 sec2 hm2 s hs hne
    obtain ⟨ver, sid, mid, mt, pl, sec⟩ := m2
    simp only at hm2
    subst hm2
    simp only [unpackIncoming]
    simp only [hs]
    simp [beq_eq_false_iff_ne.mpr hne]

/-- Claim C3 witness: a concrete connect message round-trips through
the envelope (concrete primitive functions, inverse by construction). -/
theorem c3_envelope_roundtrip_witness :
    unpackIncoming { enabled := true, integrity := true, encryption := true }
        (fun _ _ => some (Json.obj [("offer", Json.str "v=0..o")])) (fun s => s)
        (prepareOutgoing { enabled := true, integrity := true, encryption := true }
          (fun _ => ("Y3Q=", "aXY=")) (fun s => s)
          { version := 1, source_id := "alice-0123456789", message_id := 1,
            message_type := "connect", payload := [("offer", Json.str "v=0..o")],
            security := none }) =
      .ok { version := 1, source_id := "alice-0123456789", message_id := 1,
            message_type := "connect", payload := [("offer", Json.str "v=0..o")],
            security := none } :=
  (c3_envelope_roundtrip (fun _ => ("Y3Q=", "aXY="))
    (fun _ _ => some (Json.obj [("offer", Json.str "v=0..o")])) (fun s => s)
    { version := 1, source_id := "alice-0123456789", message_id := 1,
      message_type := "connect", payload := [("offer", Json.str "v=0..o")],
      security := none } rfl rfl).1

theorem closeSessionsFor_spec (endpoints : List (String × Nat)) (serverSource : String)
    (src : String) : ∀ (sessions : List (String × SessionRec)) (counter : Int),
    (closeSessionsFor endpoints serverSource counter src sessions).1 =
      sessions.filter (fun p => !(p.2.a == src || p.2.b == src)) ∧
    (closeSessionsFor endpoints serverSource counter src sessions).2.1.map
        (fun q => (q.1, q.2.source_id, q.2.target)) =
      sessions.filterMap (fun p =>
        if p.2.a = src ∨ p.2.b = src then
          (List.lookup (peerOf src p.2) endpoints).map (fun sock => (sock, serverSource, src))
        else none) ∧
    ∀ q ∈ (closeSessionsFor endpoints serverSource counter src sessions).2.1,
      q.2.message_type = "close" ∧ q.2.version = 1 := by
  intro sessions
  induction sessions with
  | nil =>
      intro counter
      refine ⟨rfl, rfl, ?_⟩
      intro q hq
      cases hq
  | cons hd rest ih =>
      intro counter
      rcases hd with ⟨sid, s⟩
      by_cases hinv : s.a = src ∨ s.b = src
      · have hb : (s.a == src || s.b == src) = true := by
          rcases hinv with hx | hx <;> simp [hx]
        cases hlook : List.lookup (peerOf src s) endpoints with
        | some sock =>
            have e : closeSessionsFor endpoints serverSource counter src ((sid, s) :: rest) =
                ((closeSessionsFor endpoints serverSource (counter + 1) src rest).1,
                 (sock, { version := 1, source_id := serverSource, message_id := counter + 1,
                          message_type := "close", target := src }) ::
                   (closeSessionsFor endpoints serverSource (counter + 1) src rest).2.1,
                 (closeSessionsFor endpoints serverSource (counter + 1) src rest).2.2) := by
              simp only [closeSessionsFor, if_pos hinv]
              rw [show (if s.a = src then s.b else s.a) = peerOf src s from rfl, hlook]
            rw [e]
            refine ⟨?_, ?_, ?_⟩
            · simp only [List.filter_cons, hb]
              exact (ih (counter + 1)).1
            · simp only [List.map_cons]
              rw [(ih (counter + 1)).2.1]
              simp [List.filterMap_cons, hinv, hlook]
            · intro q hq
              rcases List.mem_cons.mp hq with hq1 | hq2
              · rw [hq1]
                exact ⟨rfl, rfl⟩
              · exact (ih (counter + 1)).2.2 q hq2
        | none =>
            have e : closeSessionsFor endpoints serverSource counter src ((sid, s) :: rest) =
                closeSessionsFor endpoints serverSource counter src rest := by
              simp only [closeSessionsFor, if_pos hinv]
              rw [show (if s.a = src then s.b else s.a) = peerOf src s from rfl, hlook]
            rw [e]
            refine ⟨?_, ?_, (ih counter).2.2⟩
            · simp only [List.filter_cons, hb]
              exact (ih counter).1
            · simp only [List.filterMap_cons, if_pos hinv, hlook, Option.map_none]
              exact (ih counter).2.1
      · have hb : (s.a == src || s.b == src) = false := by
          simp only [not_or] at hinv
          simp [hinv.1, hinv.2]
        have e : closeSessionsFor endpoints serverSource counter src ((sid, s) :: rest) =
            ((sid, s) :: (closeSessionsFor endpoints serverSource counter src rest).1,
             (closeSessionsFor endpoints serverSource counter src rest).2.1,
             (closeSessionsFor endpoints serverSource counter src rest).2.2) := by
          simp only [closeSessionsFor, if_neg hinv]
        rw [e]
        refine ⟨?_, ?_, (ih counter).2.2⟩
        · have hinv2 := not_or.mp hinv
          simp [List.filter_cons, hb, (ih counter).1, hinv2.1, hinv2.2]
        · simp only [List.filterMap_cons, if_neg hinv]
          exact (ih counter).2.1

theorem onTransportCloseGo_nomatch (ws : Nat) :
    ∀ (entries : List (String × Nat)) (st : RelayState),
    (∀ p ∈ entries, p.2 ≠ ws) → onTransportCloseGo ws entries st = (st, []) := by
  intro entries
  induction entries with
  | nil =>
      intro st _
      rfl
  | cons hd rest ih =>
      intro st h
      rcases hd with ⟨s0, k0⟩
      have hk : k0 ≠ ws := h (s0, k0) (by simp)
      simp only [onTransportCloseGo, if_neg hk]
      exact ih st (fun p hp => h p (List.mem_cons_of_mem _ hp))

theorem onTransportCloseGo_single (ws : Nat) (src : String) :
    ∀ (entries : List (String × Nat)) (st : RelayState),
    entries.filter (fun p => p.2 == ws) = [(src, ws)] →
    onTransportCloseGo ws entries st =
      ({ st with endpoints := mapDelete src st.endpoints,
                 matcher := mapDelete src st.matcher,
                 registered := mapDelete src st.registered,
                 sessions := (closeSessionsFor (mapDelete src st.endpoints) st.serverSource
                   st.serverCounter src st.sessions).1,
                 serverCounter := (closeSessionsFor (mapDelete src st.endpoints) st.serverSource
                   st.serverCounter src st.sessions).2.2 },
       (closeSessionsFor (mapDelete src st.endpoints) st.serverSource st.serverCounter src
         st.sessions).2.1) := by
  intro entries
  induction entries with
  | nil =>
      intro st h
      simp [List.filter] at h
  | cons hd rest ih =>
      intro st h
      rcases hd with ⟨s0, k0⟩
      by_cases hk : k0 = ws
      · subst hk
        have hcons : (s0, k0) :: List.filter (fun p => p.2 == k0) rest = [(src, k0)] := by
          rw [← h]
          simp [List.filter_cons]
        rcases List.cons.injEq .. |>.mp hcons with ⟨hpair, hrest⟩
        have hs0 : s0 = src := (Prod.mk.injEq .. |>.mp hpair).1
        subst hs0
        have hnone : ∀ p ∈ rest, p.2 ≠ k0 := by
          intro p hp hpk
          have hpf : p ∈ List.filter (fun p => p.2 == k0) rest := by
            rw [List.mem_filter]
            exact ⟨hp, by simp [hpk]⟩
          rw [hrest] at hpf
          cases hpf
        simp only [onTransportCloseGo, if_pos rfl]
        rw [onTransportCloseGo_nomatch k0 rest _ hnone]
        simp
      · have e : List.filter (fun p => p.2 == ws) ((s0, k0) :: rest) =
            List.filter (fun p => p.2 == ws) rest := by
          simp [List.filter_cons, hk]
        rw [e] at h
        simp only [onTransportCloseGo, if_neg hk]
        exact ih st h

/-- Claim C1 (amended): when the transport bound to exactly one
endpoint closes, that endpoint is removed from the routing table, the
matcher registry and the registrations, every session it participates
in is removed, and for each torn-down session whose surviving peer is
still connected exactly one `close` message is sent to that peer's
socket — a close AUTHORED BY THE RELAY: its `source_id` is the server's
source id and the disconnected endpoint's id is carried in `target`. -/
theorem c1_transport_close (st : RelayState) (ws : Nat) (src : String)
    (h : st.endpoints.filter (fun p => p.2 == ws) = [(src, ws)]) :
    List.lookup src (onTransportClose st ws).1.endpoints = none ∧
    List.lookup src (onTransportClose st ws).1.matcher = none ∧
    List.lookup src (onTransportClose st ws).1.registered = none ∧
    (onTransportClose st ws).1.sessions =
      st.sessions.filter (fun p => !(p.2.a == src || p.2.b == src)) ∧
    (onTransportClose st ws).2.map (fun q => (q.1, q.2.source_id, q.2.target)) =
      st.sessions.filterMap (fun p =>
        if p.2.a = src ∨ p.2.b = src then
          (List.lookup (peerOf src p.2) (mapDelete src st.endpoints)).map
            (fun sock => (sock, st.serverSource, src))
        else none) ∧
    ∀ q ∈ (onTransportClose st ws).2, q.2.message_type = "close" := by
  have hgo := onTransportCloseGo_single ws src st.endpoints st h
  have hspec := closeSessionsFor_spec (mapDelete src st.endpoints) st.serverSource src
    st.sessions st.serverCounter
  unfold onTransportClose
  rw [hgo]
  exact ⟨lookup_mapDelete_self src st.endpoints, lookup_mapDelete_self src st.matcher,
    lookup_mapDelete_self src st.registered, hspec.1, hspec.2.1,
    fun q hq => (hspec.2.2 q hq).1⟩

/-- Claim C1 counterexample: when alice's transport closes, surviving
peer bob receives exactly one synthesized close — but its `source_id`
is the SERVER's source id, not alice's (alice's id is in `target`), so
the close is authored by the relay, not by the disconnected peer. -/
theorem c1_counterexample :
    (onTransportClose c1exampleState 1).2 =
      [(2, { version := 1, source_id := "server-0123456789", message_id := 1,
             message_type := "close", target := "alice-0123456789" })] ∧
    "server-0123456789" ≠ "alice-0123456789" :=
  ⟨rfl, by decide⟩

/-- Claim C1 witness: the amended theorem applied to the concrete
two-endpoint state. -/
theorem c1_transport_close_witness :
    List.lookup "alice-0123456789" (onTransportClose c1exampleState 1).1.endpoints = none ∧
    List.lookup "alice-0123456789" (onTransportClose c1exampleState 1).1.matcher = none ∧
    List.lookup "alice-0123456789" (onTransportClose c1exampleState 1).1.registered = none ∧
    (onTransportClose c1exampleState 1).1.sessions =
      c1exampleState.sessions.filter
        (fun p => !(p.2.a == "alice-0123456789" || p.2.b == "alice-0123456789")) ∧
    (onTransportClose c1exampleState 1).2.map (fun q => (q.1, q.2.source_id, q.2.target)) =
      c1exampleState.sessions.filterMap (fun p =>
        if p.2.a = "alice-0123456789" ∨ p.2.b = "alice-0123456789" then
          (List.lookup (peerOf "alice-0123456789" p.2)
            (mapDelete "alice-0123456789" c1exampleState.endpoints)).map
            (fun sock => (sock, c1exampleState.serverSource, "alice-0123456789"))
        else none) ∧
    ∀ q ∈ (onTransportClose c1exampleState 1).2, q.2.message_type = "close" :=
  c1_transport_close c1exampleState 1 "alice-0123456789" (by decide)

end Swap
